import Mathlib

/-!
Verification of the invest_agent research-pipeline orchestrator and its
valuation helpers.  Python sources are shallowly embedded: dictionaries with
optional keys become structures of Option fields, Python floats become exact
rationals, and every fallible Python operation (division, negative indexing)
is modelled in an Except monad so that raised exceptions are visible.
-/

namespace InvestAgent

/-- Opaque payload of one news item; the orchestrator only ever counts them. -/
structure NewsItem where
  deriving DecidableEq, Repr, Inhabited

/-- Opaque payload of one LLM output item; the orchestrator only tests list
emptiness on them. -/
structure LLMItem where
  deriving DecidableEq, Repr, Inhabited

/-- Metrics mapping carried inside one fundamentals entry; the risk agent reads
the two keys debt_to_fcf and fcf_cagr, each possibly absent
(src/agents/risk_assessment.py). -/
structure Metrics where
  debt_to_fcf : Option ℚ
  fcf_cagr : Option ℚ
  deriving DecidableEq, Repr

/-- One fundamentals entry: a dict with optional ticker and a metrics dict
(absent metrics behaves as a dict whose every get returns None). -/
structure FundItem where
  ticker : Option String
  metrics : Metrics
  deriving DecidableEq, Repr

/-- One valuation entry as read by the risk agent: optional ticker and
optional margin_of_safety. -/
structure ValItem where
  ticker : Option String
  margin_of_safety : Option ℚ
  deriving DecidableEq, Repr

/-- One entry of the risk summary produced by RiskAssessmentAgent.assess
(src/agents/risk_assessment.py lines 36-44). -/
structure RiskItem where
  ticker : Option String
  flags : List String
  margin_of_safety : Option ℚ
  position_weight : ℚ
  allowed : Bool
  deriving DecidableEq, Repr

/-- The tickers value inside params as consumed by InputSupervisorAgent.run:
Python None, a comma-separated string, or a list of strings
(src/agents/input_supervisor.py lines 29-31). -/
inductive TickersVal where
  | none
  | str (s : String)
  | list (l : List String)
  deriving DecidableEq, Repr

/-- The slice of the params mapping that InputSupervisorAgent.run reads:
the tickers value and max_candidates (Lean none covers both an absent key and
a non-int value, which the isinstance check treats alike). -/
structure SupervisorParams where
  tickers : TickersVal
  max_candidates : Option Int
  deriving DecidableEq, Repr

/-- PipelineState from src/graph/orchestrator.py lines 23-33: a TypedDict with
total=False, so every field may be absent.  The same shape serves as a
PartialUpdate (a returned dict naming only some fields). -/
structure PipelineState where
  params : Option SupervisorParams
  candidates : Option (List String)
  fundamentals : Option (List FundItem)
  news_bundle : Option (List NewsItem)
  valuation : Option (List ValItem)
  risk : Option (List RiskItem)
  llm_strategy : Option (List LLMItem)
  llm_narrative : Option (List LLMItem)
  llm_tool_agent : Option (List LLMItem)
  report_path : Option String
  deriving DecidableEq, Repr

/-- The empty dict returned by the pass-through nodes. -/
def emptyUpdate : PipelineState :=
  ⟨none, none, none, none, none, none, none, none, none, none⟩

/-- join_gate_node (orchestrator.py lines 85-87): returns the empty dict. -/
def join_gate_node (_state : PipelineState) : PipelineState := emptyUpdate

/-- llm_join_node (orchestrator.py lines 112-114): returns the empty dict. -/
def llm_join_node (_state : PipelineState) : PipelineState := emptyUpdate

/-- llm_fanout_node (orchestrator.py lines 147-148): returns the empty dict. -/
def llm_fanout_node (_state : PipelineState) : PipelineState := emptyUpdate

/-- One field of a last-write-wins merge: the value of the update when the update
names the field, the old value otherwise. -/
def mergeField {α : Type} (upd old : Option α) : Option α :=
  match upd with
  | some v => some v
  | none => old

/-- Modelled from the spec: the State Store merge (spec section 3,
PartialUpdate: applied via last-write-wins merge into SharedState only for
fields the update explicitly names, absent fields are untouched).  The engine
applying node updates lives in the langgraph dependency, not under src/. -/
def mergeUpdate (s u : PipelineState) : PipelineState where
  params := mergeField u.params s.params
  candidates := mergeField u.candidates s.candidates
  fundamentals := mergeField u.fundamentals s.fundamentals
  news_bundle := mergeField u.news_bundle s.news_bundle
  valuation := mergeField u.valuation s.valuation
  risk := mergeField u.risk s.risk
  llm_strategy := mergeField u.llm_strategy s.llm_strategy
  llm_narrative := mergeField u.llm_narrative s.llm_narrative
  llm_tool_agent := mergeField u.llm_tool_agent s.llm_tool_agent
  report_path := mergeField u.report_path s.report_path

/-- Python truthiness of state.get(field) for a list-valued field: false for an
absent key, false for an empty list, true otherwise. -/
def truthyList {α : Type} (o : Option (List α)) : Bool :=
  !(o.getD []).isEmpty

/-- The join_gate readiness predicate (orchestrator.py lines 89-94): ready when
the news bundle is at least as long as the candidate list and risk is a
non-empty value. -/
def join_ready (state : PipelineState) : String :=
  let candidates := state.candidates.getD []
  let news := state.news_bundle.getD []
  let has_news := decide (candidates.length ≤ news.length)
  let has_risk := truthyList state.risk
  if has_news && has_risk then "ready" else "wait"

/-- The llm_join readiness predicate (orchestrator.py lines 116-120): ready
when all three LLM output fields hold non-empty values. -/
def llm_ready (state : PipelineState) : String :=
  let has_strategy := truthyList state.llm_strategy
  let has_narrative := truthyList state.llm_narrative
  let has_tool := truthyList state.llm_tool_agent
  if has_strategy && has_narrative && has_tool then "ready" else "wait"

/-- The static edges that run_pipeline declares on the graph
(orchestrator.py lines 153-190, add_edge calls). -/
def pipelineEdges : List (String × String) :=
  [("START", "supervisor"),
   ("supervisor", "screener"),
   ("screener", "analyst"),
   ("screener", "news"),
   ("analyst", "valuation"),
   ("valuation", "risk"),
   ("risk", "join_gate"),
   ("news", "join_gate"),
   ("llm_fanout", "llm_strategy"),
   ("llm_fanout", "llm_narrative"),
   ("llm_fanout", "llm_tool_agent"),
   ("llm_strategy", "llm_join"),
   ("llm_narrative", "llm_join"),
   ("llm_tool_agent", "llm_join"),
   ("reporter", "END")]

/-- Static successors of a node under the declared edges. -/
def successors (n : String) : List String :=
  (pipelineEdges.filter (fun e => e.1 = n)).map (fun e => e.2)

/-- Modelled from the spec: one completion-event evaluation of a Readiness
Gate guarded by its FanoutToken (spec sections 4.3-4.4: if the token is unset
and the predicate returns ready, set the token and return the declared
successor set; an already-set token makes the event a no-op).  The engine that
drives gate evaluations lives in the langgraph dependency, not under src/;
the predicate and the successor wiring are taken from orchestrator.py. -/
def gateStep (pred : PipelineState → String) (succs : List String)
    (token : Bool) (s : PipelineState) : Bool × List String :=
  if token then (true, [])
  else if pred s = "ready" then (true, succs) else (token, [])

/-- Run a gate over a whole trace of completion events, threading the
FanoutToken and recording the successor set scheduled at each event. -/
def gateTrace (pred : PipelineState → String) (succs : List String) :
    List PipelineState → Bool → List (List String)
  | [], _ => []
  | s :: rest, token =>
    let r := gateStep pred succs token s
    r.2 :: gateTrace pred succs rest r.1

/-- How many events of a trace actually scheduled successors, starting from an
unset FanoutToken. -/
def fireCount (pred : PipelineState → String) (succs : List String)
    (trace : List PipelineState) : ℕ :=
  ((gateTrace pred succs trace false).filter (fun l => l ≠ [])).length

/-- The label-to-successor mapping of the conditional edges attached to
llm_join (orchestrator.py lines 181-186). -/
def llmJoinLabelMap (label : String) : Option String :=
  if label = "ready" then some "reporter"
  else if label = "wait" then some "noop"
  else none

/-- Modelled from the spec: one conditional-router evaluation (spec section
4.5: evaluate the router function against current SharedState, resolve label
to successor id, add that successor to the eligible set of the next wave — exactly
one successor per router evaluation).  The router function and label mapping
are the llm_join wiring of the source; the traversal itself lives in langgraph. -/
def llmJoinSchedule (s : PipelineState) : List String :=
  match llmJoinLabelMap (llm_ready s) with
  | some n => [n]
  | none => []

/-- Evaluating a gate predicate as an explicit state transformer: the Python
bodies of the predicates only perform dict reads, so the state component is
returned as the reads left it. -/
def join_ready_eval (s : PipelineState) : String × PipelineState :=
  (join_ready s, s)

/-- Same state-transformer view for the llm_join predicate. -/
def llm_ready_eval (s : PipelineState) : String × PipelineState :=
  (llm_ready s, s)

/-- Evaluate a state-transforming gate predicate n times in sequence,
threading the state and collecting the returned labels. -/
def evalRepeatedly (f : PipelineState → String × PipelineState) :
    ℕ → PipelineState → List String × PipelineState
  | 0, s => ([], s)
  | n + 1, s =>
    let r := f s
    let rest := evalRepeatedly f n r.2
    (r.1 :: rest.1, rest.2)

/-- A Python value as stored in the params dict: None, an int, a string, a
list of strings, or anything else (opaque). -/
inductive PyValue where
  | none
  | int (n : Int)
  | str (s : String)
  | list (l : List String)
  | other
  deriving DecidableEq, Repr

/-- The user_input mapping as a partial map from key to Python value; Lean
none means the key is absent. -/
def ParamDict : Type := String → Option PyValue

/-- default_params (orchestrator.py lines 36-45): copy the user input and
setdefault the seven recognized keys — tickers, sector, query and
max_candidates and reports_dir default to None, news_window_days to 14,
max_news to 30. -/
def default_params (u : ParamDict) : ParamDict := fun k =>
  match u k with
  | some v => some v
  | none =>
    if k = "tickers" ∨ k = "sector" ∨ k = "query" ∨ k = "max_candidates" ∨
        k = "reports_dir" then
      some PyValue.none
    else if k = "news_window_days" then some (PyValue.int 14)
    else if k = "max_news" then some (PyValue.int 30)
    else none

/-- The single typed error run_pipeline raises after the engine returns:
RuntimeError when the final state lacks a report path
(orchestrator.py lines 197-198); the spec names it IncompletePipelineError. -/
inductive PipelineError where
  | IncompletePipelineError
  deriving DecidableEq, Repr

/-- A filesystem path, as Path(report_path) wraps the string. -/
structure FSPath where
  path : String
  deriving DecidableEq, Repr

/-- The tail of run_pipeline (orchestrator.py lines 195-199): read report_path
from the final state the engine returned; a missing or empty value (Python
falsy) raises the typed error, otherwise the Path is returned. -/
def finishPipeline (final : PipelineState) : Except PipelineError FSPath :=
  match final.report_path with
  | none => Except.error PipelineError.IncompletePipelineError
  | some p =>
    if p = "" then Except.error PipelineError.IncompletePipelineError
    else Except.ok ⟨p⟩

/-- Exceptions a Python arithmetic body can raise: float division by zero and
indexing an empty list. -/
inductive PyErr where
  | ZeroDivisionError
  | IndexError
  deriving DecidableEq, Repr

/-- Python float division: raises ZeroDivisionError on a zero divisor. -/
def pydiv (a b : ℚ) : Except PyErr ℚ :=
  if b = 0 then Except.error PyErr.ZeroDivisionError else Except.ok (a / b)

/-- Python negative indexing xs[-1]: raises IndexError on an empty list. -/
def pyLast {α : Type} (xs : List α) : Except PyErr α :=
  match xs.getLast? with
  | some v => Except.ok v
  | none => Except.error PyErr.IndexError

/-- The helper _initial_fcf (src/valuation/dcf.py lines 20-24): keep the non-None values
of the series and return the last one, or None when none remain. -/
def initial_fcf (series : List (Option ℚ)) : Option ℚ :=
  (series.filterMap id).getLast?

/-- The helper _project_cash_flows (dcf.py lines 27-33): compound the latest FCF by the
growth rate once per year, collecting each compounded value. -/
def project_cash_flows (latest_fcf growth_rate : ℚ) : ℕ → List ℚ
  | 0 => []
  | n + 1 =>
    let current := latest_fcf * (1 + growth_rate)
    current :: project_cash_flows current growth_rate n

/-- The result dict of discounted_cash_flow (dcf.py lines 9-17). -/
structure DCFResult where
  projected_fcf : List ℚ
  discount_rate : ℚ
  terminal_growth : ℚ
  present_value : ℚ
  terminal_value : ℚ
  enterprise_value : ℚ
  intrinsic_value_per_share : Option ℚ
  deriving DecidableEq, Repr

/-- The early-return dict of discounted_cash_flow (dcf.py lines 46-54). -/
def dcfDegenerate (discount_rate terminal_growth : ℚ) : DCFResult where
  projected_fcf := []
  discount_rate := discount_rate
  terminal_growth := terminal_growth
  present_value := 0
  terminal_value := 0
  enterprise_value := 0
  intrinsic_value_per_share := none

/-- The discounting loop of dcf.py lines 58-60: starting from an accumulator,
add flow / (1 + discount_rate) ^ year for each flow, year counting from the
given start; each division may raise. -/
def pvSum (discount_rate : ℚ) : List ℚ → ℕ → ℚ → Except PyErr ℚ
  | [], _, acc => Except.ok acc
  | f :: fs, year, acc =>
    match pydiv f ((1 + discount_rate) ^ year) with
    | Except.error e => Except.error e
    | Except.ok q => pvSum discount_rate fs (year + 1) (acc + q)

/-- discounted_cash_flow (dcf.py lines 36-77), with every Python division and
the projected[-1] access modelled as fallible. -/
def discounted_cash_flow (free_cash_flows : List (Option ℚ))
    (discount_rate growth_rate terminal_growth shares_outstanding : ℚ)
    (horizon_years : ℕ := 5) : Except PyErr DCFResult :=
  match initial_fcf free_cash_flows with
  | none => Except.ok (dcfDegenerate discount_rate terminal_growth)
  | some latest_fcf =>
    if shares_outstanding ≤ 0 then
      Except.ok (dcfDegenerate discount_rate terminal_growth)
    else
      let projected := project_cash_flows latest_fcf growth_rate horizon_years
      match pvSum discount_rate projected 1 0 with
      | Except.error e => Except.error e
      | Except.ok present_value =>
        match (if terminal_growth < discount_rate then
                 match pyLast projected with
                 | Except.error e => Except.error e
                 | Except.ok last =>
                   pydiv (last * (1 + terminal_growth))
                     (discount_rate - terminal_growth)
               else Except.ok 0) with
        | Except.error e => Except.error e
        | Except.ok terminal_value =>
          match pydiv terminal_value ((1 + discount_rate) ^ horizon_years) with
          | Except.error e => Except.error e
          | Except.ok terminal_present_value =>
            let enterprise_value := present_value + terminal_present_value
            if 0 < enterprise_value then
              match pydiv enterprise_value shares_outstanding with
              | Except.error e => Except.error e
              | Except.ok ivps =>
                Except.ok
                  { projected_fcf := projected
                    discount_rate := discount_rate
                    terminal_growth := terminal_growth
                    present_value := present_value
                    terminal_value := terminal_value
                    enterprise_value := enterprise_value
                    intrinsic_value_per_share := some ivps }
            else
              Except.ok
                { projected_fcf := projected
                  discount_rate := discount_rate
                  terminal_growth := terminal_growth
                  present_value := present_value
                  terminal_value := terminal_value
                  enterprise_value := enterprise_value
                  intrinsic_value_per_share := none }

/-- An argument of valuation_from_multiples as Python receives it: None, a
numeric value, or a value on which float() raises. -/
inductive FloatArg where
  | none
  | num (q : ℚ)
  | nonNumeric
  deriving DecidableEq, Repr

/-- The helper _safe_float (src/valuation/multiples.py lines 8-12): None stays None, a
numeric value is converted, a TypeError/ValueError from float() is swallowed
into None. -/
def safe_float : FloatArg → Option ℚ
  | FloatArg.none => none
  | FloatArg.num q => some q
  | FloatArg.nonNumeric => none

/-- Python truthiness of an optional float: false for None and for 0.0. -/
def truthyOpt (o : Option ℚ) : Bool :=
  match o with
  | some q => decide (q ≠ 0)
  | none => false

/-- The result dict of valuation_from_multiples (multiples.py lines 41-46). -/
structure MultiplesResult where
  pe : Option ℚ
  ps : Option ℚ
  ev_ebit : Option ℚ
  intrinsic_value_per_share : Option ℚ
  deriving DecidableEq, Repr

/-- The pe conditional expression of multiples.py line 29. -/
def peCalc (price eps : Option ℚ) : Except PyErr (Option ℚ) :=
  if truthyOpt price && truthyOpt eps && decide (eps.getD 0 ≠ 0) then
    Except.map some (pydiv (price.getD 0) (eps.getD 0))
  else Except.ok none

/-- The ps conditional expression of multiples.py line 30. -/
def psCalc (price revenue : Option ℚ) (shares : ℚ) : Except PyErr (Option ℚ) :=
  if truthyOpt price && truthyOpt revenue then
    match pydiv (revenue.getD 0) shares with
    | Except.error e => Except.error e
    | Except.ok inner => Except.map some (pydiv (price.getD 0) inner)
  else Except.ok none

/-- The ev_ebit / intrinsic_value branch of multiples.py lines 34-39; returns
the pair (ev_ebit, intrinsic_value_per_share). -/
def evIntrinsic (eps ebit : Option ℚ) (shares terminal_multiple : ℚ) :
    Except PyErr (Option ℚ × Option ℚ) :=
  if truthyOpt ebit && decide (0 < ebit.getD 0) && decide (0 < shares) then
    let enterprise_value := ebit.getD 0 * terminal_multiple
    match pydiv enterprise_value shares with
    | Except.error e => Except.error e
    | Except.ok intrinsic =>
      match pydiv enterprise_value (ebit.getD 0) with
      | Except.error e => Except.error e
      | Except.ok ev_ebit => Except.ok (some ev_ebit, some intrinsic)
  else if truthyOpt eps && decide (0 < eps.getD 0) then
    Except.ok (none, some (eps.getD 0 * terminal_multiple))
  else Except.ok (none, none)

/-- valuation_from_multiples (multiples.py lines 15-46): coerce the four
optional inputs, replace a non-positive share count by 1.0, and compute the
guarded ratios, every division modelled as fallible. -/
def valuation_from_multiples (price eps revenue ebit : FloatArg)
    (shares_outstanding terminal_multiple : ℚ) :
    Except PyErr MultiplesResult :=
  let price := safe_float price
  let eps := safe_float eps
  let revenue := safe_float revenue
  let ebit := safe_float ebit
  let shares := if 0 < shares_outstanding then shares_outstanding else 1
  match peCalc price eps with
  | Except.error e => Except.error e
  | Except.ok pe =>
    match psCalc price revenue shares with
    | Except.error e => Except.error e
    | Except.ok ps =>
      match evIntrinsic eps ebit shares terminal_multiple with
      | Except.error e => Except.error e
      | Except.ok pair =>
        Except.ok
          { pe := pe
            ps := ps
            ev_ebit := pair.1
            intrinsic_value_per_share := pair.2 }

/-- The Python dict comprehension building valuation_map keyed by ticker and
the later .get(ticker, default): for duplicate tickers the last entry wins, so
look the ticker up from the tail first (risk_assessment.py line 17 and 21). -/
def lookupVal : List ValItem → Option String → Option ValItem
  | [], _ => none
  | v :: vs, t =>
    match lookupVal vs t with
    | some r => some r
    | none => if v.ticker = t then some v else none

/-- The body of the loop of RiskAssessmentAgent.assess for one fundamentals
entry (risk_assessment.py lines 18-44), with the default thresholds passed in
from __init__. -/
def assessItem (max_weight leverage_threshold : ℚ) (valuations : List ValItem)
    (item : FundItem) : RiskItem :=
  let flags :=
    (match item.metrics.debt_to_fcf with
     | some d => if leverage_threshold < d then ["High leverage vs FCF"] else []
     | none => []) ++
    (match item.metrics.fcf_cagr with
     | some g => if g < 0 then ["Negative FCF growth"] else []
     | none => [])
  let mos := (lookupVal valuations item.ticker).bind ValItem.margin_of_safety
  let allowed :=
    (match mos with
     | some m => decide (0 < m)
     | none => false) && !(flags.contains "High leverage vs FCF")
  let weight := if allowed then max_weight else 0
  { ticker := item.ticker
    flags := flags
    margin_of_safety := mos
    position_weight := weight
    allowed := allowed }

/-- The degraded risk entry produced for a fundamentals item when no valuation
entry matches it: flags still computed from the metrics, margin_of_safety
absent, position disallowed with weight zero. -/
def degradedRiskItem (leverage_threshold : ℚ) (item : FundItem) : RiskItem :=
  { ticker := item.ticker
    flags :=
      (match item.metrics.debt_to_fcf with
       | some d => if leverage_threshold < d then ["High leverage vs FCF"] else []
       | none => []) ++
      (match item.metrics.fcf_cagr with
       | some g => if g < 0 then ["Negative FCF growth"] else []
       | none => [])
    margin_of_safety := none
    position_weight := 0
    allowed := false }

/-- RiskAssessmentAgent.assess (risk_assessment.py lines 15-45). -/
def assess (max_weight leverage_threshold : ℚ) (fundamentals : List FundItem)
    (valuations : List ValItem) : List RiskItem :=
  fundamentals.map (assessItem max_weight leverage_threshold valuations)

/-- RiskAssessmentAgent.run (risk_assessment.py lines 47-51): read
fundamentals and valuation with an empty-list default and write the risk
summary; the agent is constructed with max_weight 0.10 and
leverage_threshold 3.0. -/
def riskAssessmentRun (state : PipelineState)
    (max_weight : ℚ := 1/10) (leverage_threshold : ℚ := 3) : PipelineState :=
  { state with
      risk := some (assess max_weight leverage_threshold
        (state.fundamentals.getD []) (state.valuation.getD [])) }

/-- Python str.strip(): drop leading and trailing whitespace, written over the
character list so that it evaluates inside the kernel. -/
def pyStrip (s : String) : String :=
  ⟨((s.data.dropWhile Char.isWhitespace).reverse.dropWhile
      Char.isWhitespace).reverse⟩

/-- Python str.upper() on ASCII letters, written over the character list. -/
def pyUpper (s : String) : String :=
  ⟨s.data.map Char.toUpper⟩

/-- Python str.split(",") over the character list: split at every comma and
keep empty pieces. -/
def splitOnCommaAux : List Char → List (List Char)
  | [] => [[]]
  | c :: rest =>
    let r := splitOnCommaAux rest
    if c = ',' then [] :: r
    else
      match r with
      | [] => [[c]]
      | p :: ps => (c :: p) :: ps

/-- Python str.split(",") producing strings. -/
def pySplitComma (s : String) : List String :=
  (splitOnCommaAux s.data).map (fun l => ⟨l⟩)

/-- The loop of InputSupervisorAgent._normalize_tickers
(input_supervisor.py lines 17-25), with the accumulated norm list doubling as
the seen set (they always hold the same elements). -/
def normalizeAux : List String → List String → List String
  | [], acc => acc
  | t :: ts, acc =>
    if t = "" then normalizeAux ts acc
    else
      let u := pyUpper (pyStrip t)
      if u = "" ∨ u ∈ acc then normalizeAux ts acc
      else normalizeAux ts (acc ++ [u])

/-- InputSupervisorAgent._normalize_tickers (input_supervisor.py lines 14-25). -/
def normalize_tickers (raw : List String) : List String :=
  normalizeAux raw []

/-- Lines 29-31 of input_supervisor.py: params.get("tickers") or [] followed
by the comma-splitting of a string value. -/
def explicitTickers : TickersVal → List String
  | TickersVal.none => []
  | TickersVal.str s =>
    if s = "" then []
    else ((pySplitComma s).map pyStrip).filter (fun p => p ≠ "")
  | TickersVal.list l => l

/-- Lines 34-36 of input_supervisor.py: truncate the normalized list when
max_candidates is an int greater than zero, otherwise leave it alone. -/
def truncTake (max_candidates : Option Int) (l : List String) : List String :=
  match max_candidates with
  | some m => if 0 < m then l.take m.toNat else l
  | none => l

/-- InputSupervisorAgent.run (input_supervisor.py lines 27-40): normalize any
supplied tickers, truncate when max_candidates is a positive int, and write
candidates; with no tickers, only ensure the candidates key exists. -/
def input_supervisor_run (state : PipelineState) : PipelineState :=
  let params := state.params.getD ⟨TickersVal.none, none⟩
  let explicit := explicitTickers params.tickers
  if explicit ≠ [] then
    let normalized := truncTake params.max_candidates (normalize_tickers explicit)
    { state with candidates := some normalized }
  else
    match state.candidates with
    | some _ => state
    | none => { state with candidates := some [] }

/-- First-occurrence deduplication stated directly: keep the head and drop its
later duplicates before recursing.  This is the specification-level reading of
the claim, compared against the source loop. -/
def firstDedup : List String → List String
  | [] => []
  | x :: xs => x :: (firstDedup xs).filter (fun y => y ≠ x)

/-- The whitespace-stripped, uppercased, empty-dropped image of a raw ticker
list, before deduplication. -/
def cleanedTickers (raw : List String) : List String :=
  (raw.map (fun t => pyUpper (pyStrip t))).filter (fun u => u ≠ "")

/-- A concrete state in which both join predicates answer ready: one
candidate, one news item, a non-empty risk summary and all three LLM
outputs. -/
def sampleReadyState : PipelineState where
  params := none
  candidates := some ["AAPL"]
  fundamentals := none
  news_bundle := some [{}]
  valuation := none
  risk := some [{ ticker := some "AAPL", flags := [], margin_of_safety := none,
                  position_weight := 0, allowed := false }]
  llm_strategy := some [{}]
  llm_narrative := some [{}]
  llm_tool_agent := some [{}]
  report_path := some "reports/demo.md"

/-- A concrete state in which the join predicates answer wait: risk and the
LLM outputs are still absent. -/
def sampleWaitState : PipelineState where
  params := none
  candidates := some ["AAPL"]
  fundamentals := none
  news_bundle := some [{}]
  valuation := none
  risk := none
  llm_strategy := none
  llm_narrative := none
  llm_tool_agent := none
  report_path := none

/-- A concrete user_input mapping for exercising default_params. -/
def sampleUserInput : ParamDict := fun k =>
  if k = "max_news" then some (PyValue.int 99) else none

/-- A concrete state carrying a comma-separated tickers string and a
max_candidates cap. -/
def sampleTickerState : PipelineState where
  params := some { tickers := TickersVal.str " aapl, msft ,AAPL,", max_candidates := some 5 }
  candidates := none
  fundamentals := none
  news_bundle := none
  valuation := none
  risk := none
  llm_strategy := none
  llm_narrative := none
  llm_tool_agent := none
  report_path := none

/-! ## Helper lemmas -/

theorem evalRepeatedly_const (f : PipelineState → String × PipelineState)
    (g : PipelineState → String) (hf : ∀ s, f s = (g s, s)) :
    ∀ (n : ℕ) (s : PipelineState),
      evalRepeatedly f n s = (List.replicate n (g s), s) := by
  intro n
  induction n with
  | zero => intro s; rfl
  | succ k ih =>
    intro s
    simp [evalRepeatedly, hf, ih, List.replicate_succ]

theorem gateTrace_after_fire (pred : PipelineState → String)
    (succs : List String) :
    ∀ trace, gateTrace pred succs trace true = List.replicate trace.length [] := by
  intro trace
  induction trace with
  | nil => rfl
  | cons s rest ih => simp [gateTrace, gateStep, ih, List.replicate_succ]

theorem replicate_nil_filter (n : ℕ) :
    (List.replicate n ([] : List String)).filter (fun l => l ≠ []) = [] := by
  induction n with
  | zero => rfl
  | succ k ih => simp [List.replicate_succ, List.filter_cons, ih]

theorem fireCount_le_one (pred : PipelineState → String) (succs : List String) :
    ∀ trace, fireCount pred succs trace ≤ 1 := by
  intro trace
  induction trace with
  | nil => simp [fireCount, gateTrace]
  | cons s rest ih =>
    by_cases hr : pred s = "ready"
    · have h1 : gateTrace pred succs (s :: rest) false =
          succs :: List.replicate rest.length [] := by
        simp [gateTrace, gateStep, hr, gateTrace_after_fire]
      have h2 : fireCount pred succs (s :: rest) =
          ((succs :: List.replicate rest.length []).filter
            (fun l => l ≠ [])).length := by
        rw [fireCount, h1]
      rw [h2, List.filter_cons]
      by_cases hsuc : succs = [] <;> simp [hsuc, replicate_nil_filter]
    · have h1 : fireCount pred succs (s :: rest) = fireCount pred succs rest := by
        simp [fireCount, gateTrace, gateStep, hr, List.filter_cons]
      rw [h1]
      exact ih

theorem fireCount_eq_one (pred : PipelineState → String) (succs : List String)
    (hs : succs ≠ []) :
    ∀ trace, (∃ s ∈ trace, pred s = "ready") →
      fireCount pred succs trace = 1 := by
  intro trace
  induction trace with
  | nil => rintro ⟨w, hw, _⟩; exact absurd hw (List.not_mem_nil w)
  | cons s rest ih =>
    rintro ⟨w, hw, hready⟩
    by_cases hr : pred s = "ready"
    · have h1 : gateTrace pred succs (s :: rest) false =
          succs :: List.replicate rest.length [] := by
        simp [gateTrace, gateStep, hr, gateTrace_after_fire]
      have h2 : fireCount pred succs (s :: rest) =
          ((succs :: List.replicate rest.length []).filter
            (fun l => l ≠ [])).length := by
        rw [fireCount, h1]
      rw [h2, List.filter_cons]
      simp [hs, replicate_nil_filter]
    · have h1 : fireCount pred succs (s :: rest) = fireCount pred succs rest := by
        simp [fireCount, gateTrace, gateStep, hr, List.filter_cons]
      rw [h1]
      rcases List.mem_cons.mp hw with hws | hwr
    -- the head cannot be the ready event, so the witness sits in the tail
      · exact absurd (hws ▸ hready) hr
      · exact ih ⟨w, hwr, hready⟩

/-! ## Claim theorems -/

/-- C2: for every final state the engine can hand back, run_pipeline either
returns the report path as a Path value or fails with the single typed error
IncompletePipelineError; a run that ended without a usable report_path never
yields a partial result. -/
theorem run_pipeline_terminal_or_incomplete (final : PipelineState) :
    (∃ p, final.report_path = some p ∧ p ≠ "" ∧
      finishPipeline final = Except.ok ⟨p⟩) ∨
    ((final.report_path = none ∨ final.report_path = some "") ∧
      finishPipeline final = Except.error PipelineError.IncompletePipelineError) := by
  cases h : final.report_path with
  | none =>
    right
    exact ⟨Or.inl rfl, by simp [finishPipeline, h]⟩
  | some p =>
    by_cases hp : p = ""
    · right
      subst hp
      exact ⟨Or.inr rfl, by simp [finishPipeline, h]⟩
    · left
      exact ⟨p, rfl, hp, by simp [finishPipeline, h, hp]⟩

/-- C4: the gate readiness predicates are pure and safe to call repeatedly —
evaluating either predicate n times on equal states returns the same label at
every evaluation and leaves the state exactly as it was. -/
theorem gate_predicates_pure_and_repeatable (n : ℕ) (s s₂ : PipelineState)
    (h : s = s₂) :
    (evalRepeatedly join_ready_eval n s).1 = List.replicate n (join_ready s₂) ∧
    (evalRepeatedly join_ready_eval n s).2 = s ∧
    (evalRepeatedly llm_ready_eval n s).1 = List.replicate n (llm_ready s₂) ∧
    (evalRepeatedly llm_ready_eval n s).2 = s := by
  subst h
  have hj := evalRepeatedly_const join_ready_eval join_ready (fun _ => rfl) n s
  have hl := evalRepeatedly_const llm_ready_eval llm_ready (fun _ => rfl) n s
  exact ⟨by rw [hj], by rw [hj], by rw [hl], by rw [hl]⟩

/-- Witness for C4 at a concrete ready state and n = 2. -/
theorem gate_predicates_pure_and_repeatable_witness :
    (evalRepeatedly join_ready_eval 2 sampleReadyState).1 = ["ready", "ready"] ∧
    (evalRepeatedly join_ready_eval 2 sampleReadyState).2 = sampleReadyState := by
  have h := gate_predicates_pure_and_repeatable 2 sampleReadyState sampleReadyState rfl
  refine ⟨?_, h.2.1⟩
  rw [h.1]
  rfl

/-- C6: the pass-through merge-point nodes join_gate, llm_join and llm_fanout
emit an update naming no fields, and merging that update leaves every field of
the state exactly as it was. -/
theorem passthrough_nodes_change_nothing (s : PipelineState) :
    join_gate_node s = emptyUpdate ∧
    llm_join_node s = emptyUpdate ∧
    llm_fanout_node s = emptyUpdate ∧
    mergeUpdate s (join_gate_node s) = s ∧
    mergeUpdate s (llm_join_node s) = s ∧
    mergeUpdate s (llm_fanout_node s) = s := by
  refine ⟨rfl, rfl, rfl, ?_, ?_, ?_⟩ <;> cases s <;> rfl

/-- C7: default_params keeps every user-supplied key unchanged, fills each
absent recognized key with its default (None for tickers, sector, query,
max_candidates and reports_dir; 14 for news_window_days; 30 for max_news) and
removes no key. -/
theorem default_params_passthrough_defaults (u : ParamDict) :
    (∀ k v, u k = some v → default_params u k = some v) ∧
    (u "tickers" = none → default_params u "tickers" = some PyValue.none) ∧
    (u "sector" = none → default_params u "sector" = some PyValue.none) ∧
    (u "query" = none → default_params u "query" = some PyValue.none) ∧
    (u "max_candidates" = none →
      default_params u "max_candidates" = some PyValue.none) ∧
    (u "reports_dir" = none →
      default_params u "reports_dir" = some PyValue.none) ∧
    (u "news_window_days" = none →
      default_params u "news_window_days" = some (PyValue.int 14)) ∧
    (u "max_news" = none → default_params u "max_news" = some (PyValue.int 30)) ∧
    (∀ k, default_params u k = none → u k = none) := by
  refine ⟨?_, ?_, ?_, ?_, ?_, ?_, ?_, ?_, ?_⟩
  · intro k v h
    unfold default_params
    rw [h]
  · intro h; unfold default_params; rw [h]; rfl
  · intro h; unfold default_params; rw [h]; rfl
  · intro h; unfold default_params; rw [h]; rfl
  · intro h; unfold default_params; rw [h]; rfl
  · intro h; unfold default_params; rw [h]; rfl
  · intro h; unfold default_params; rw [h]; rfl
  · intro h; unfold default_params; rw [h]; rfl
  · intro k h
    unfold default_params at h
    cases hu : u k with
    | none => rfl
    | some v => rw [hu] at h; exact absurd h (by simp)

/-- C1: once the join_gate readiness predicate first returns ready, the
FanoutToken-guarded dispatch schedules the llm_fanout successor exactly once
over any trace of completion events; re-evaluating the already-ready gate is a
no-op, and llm_fanout statically fans out to the three LLM nodes. -/
theorem join_gate_fires_exactly_once (trace : List PipelineState) :
    fireCount join_ready ["llm_fanout"] trace ≤ 1 ∧
    ((∃ s ∈ trace, join_ready s = "ready") →
      fireCount join_ready ["llm_fanout"] trace = 1) ∧
    (∀ (token : Bool) (s : PipelineState), token = true →
      gateStep join_ready ["llm_fanout"] token s = (true, [])) ∧
    successors "llm_fanout" = ["llm_strategy", "llm_narrative", "llm_tool_agent"] := by
  refine ⟨fireCount_le_one _ _ trace,
    fireCount_eq_one _ _ (by simp) trace, ?_, ?_⟩
  · intro token s ht
    subst ht
    rfl
  · rfl

/-- Witness for C1: a trace in which the gate is evaluated three times and is
ready from the second event on schedules its successors exactly once. -/
theorem join_gate_fires_exactly_once_witness :
    fireCount join_ready ["llm_fanout"]
      [sampleWaitState, sampleReadyState, sampleReadyState] = 1 :=
  (join_gate_fires_exactly_once
      [sampleWaitState, sampleReadyState, sampleReadyState]).2.1
    ⟨sampleReadyState, by simp, by rfl⟩

/-- C3: one evaluation of the llm_join conditional router schedules exactly
one successor — reporter precisely when all three LLM output fields hold
non-empty values, noop otherwise, and never anything else. -/
theorem llm_join_router_schedules_one (s : PipelineState) :
    (llmJoinSchedule s).length = 1 ∧
    (llmJoinSchedule s = ["reporter"] ↔
      (s.llm_strategy.getD [] ≠ [] ∧ s.llm_narrative.getD [] ≠ [] ∧
        s.llm_tool_agent.getD [] ≠ [])) ∧
    (llmJoinSchedule s = ["reporter"] ∨ llmJoinSchedule s = ["noop"]) := by
  unfold llmJoinSchedule llm_ready llmJoinLabelMap truthyList
  by_cases h1 : s.llm_strategy.getD [] = [] <;>
    by_cases h2 : s.llm_narrative.getD [] = [] <;>
      by_cases h3 : s.llm_tool_agent.getD [] = [] <;>
        simp [h1, h2, h3, List.isEmpty_iff]

/-- Witness for C3: the router sends the concrete ready state to reporter. -/
theorem llm_join_router_schedules_one_witness :
    llmJoinSchedule sampleReadyState = ["reporter"] :=
  (llm_join_router_schedules_one sampleReadyState).2.1.mpr
    ⟨by decide, by decide, by decide⟩

/-- Witness for C7: a mapping supplying only max_news keeps that value and
receives the defaults for absent keys. -/
theorem default_params_passthrough_defaults_witness :
    default_params sampleUserInput "max_news" = some (PyValue.int 99) ∧
    default_params sampleUserInput "tickers" = some PyValue.none ∧
    default_params sampleUserInput "news_window_days" = some (PyValue.int 14) := by
  have h := default_params_passthrough_defaults sampleUserInput
  exact ⟨h.1 "max_news" (PyValue.int 99) rfl, h.2.1 rfl, h.2.2.2.2.2.2.1 rfl⟩

/-- C5: RiskAssessmentAgent.run never raises on absent upstream fields — it
reads fundamentals and valuation with an empty-list default, writes the risk
summary computed from the fundamentals entries actually present (the empty
summary when fundamentals are absent), and an absent valuation only degrades
each entry to an absent margin of safety with a zero, disallowed position. -/
theorem risk_run_handles_absence (s : PipelineState) :
    riskAssessmentRun s =
      { s with risk := some (assess (1/10) 3 (s.fundamentals.getD [])
          (s.valuation.getD [])) } ∧
    (s.fundamentals = none → (riskAssessmentRun s).risk = some []) ∧
    (s.valuation = none → (riskAssessmentRun s).risk =
      some ((s.fundamentals.getD []).map (degradedRiskItem 3))) := by
  refine ⟨rfl, ?_, ?_⟩
  · intro h
    simp [riskAssessmentRun, h, assess]
  · intro h
    have heq : assessItem (1/10) 3 [] = degradedRiskItem 3 := by
      funext item
      rfl
    simp [riskAssessmentRun, h, assess, heq]
    exact fun a _ => congrFun heq a

/-- Witness for C5: on the all-absent state the risk agent writes the empty
summary instead of raising. -/
theorem risk_run_handles_absence_witness :
    (riskAssessmentRun emptyUpdate).risk = some [] :=
  (risk_run_handles_absence emptyUpdate).2.1 rfl

theorem band_true_iff {a b : Bool} : (a && b) = true ↔ a = true ∧ b = true := by
  simp

theorem peCalc_ok (p e : Option ℚ) :
    ∃ o, peCalc p e = Except.ok o ∧
      (o ≠ none → truthyOpt p = true ∧ truthyOpt e = true) ∧
      ((p = none ∨ e = none) → o = none) := by
  by_cases h : (truthyOpt p && truthyOpt e && decide (e.getD 0 ≠ 0)) = true
  · have hp : truthyOpt p = true := (band_true_iff.mp (band_true_iff.mp h).1).1
    have he : truthyOpt e = true := (band_true_iff.mp (band_true_iff.mp h).1).2
    have hez : e.getD 0 ≠ 0 := of_decide_eq_true (band_true_iff.mp h).2
    refine ⟨some (p.getD 0 / e.getD 0), ?_, fun _ => ⟨hp, he⟩, ?_⟩
    · simp only [peCalc, if_pos h, pydiv, if_neg hez, Except.map]
    · rintro (hn | hn) <;> subst hn
      · simp [truthyOpt] at hp
      · simp [truthyOpt] at he
  · refine ⟨none, ?_, fun hc => absurd rfl hc, fun _ => rfl⟩
    rw [peCalc, if_neg h]

theorem psCalc_ok (p r : Option ℚ) (shares : ℚ) (hsh : shares ≠ 0) :
    ∃ o, psCalc p r shares = Except.ok o ∧
      ((p = none ∨ r = none) → o = none) := by
  by_cases h : (truthyOpt p && truthyOpt r) = true
  · have hp : truthyOpt p = true := (band_true_iff.mp h).1
    have hr : truthyOpt r = true := (band_true_iff.mp h).2
    have hr0 : r.getD 0 ≠ 0 := by
      cases r with
      | none => simp [truthyOpt] at hr
      | some q => simpa [truthyOpt] using of_decide_eq_true hr
    have hinner : r.getD 0 / shares ≠ 0 := div_ne_zero hr0 hsh
    refine ⟨some (p.getD 0 / (r.getD 0 / shares)), ?_, ?_⟩
    · simp only [psCalc, if_pos h, pydiv, if_neg hsh, if_neg hinner, Except.map]
    · rintro (hn | hn) <;> subst hn
      · simp [truthyOpt] at hp
      · simp [truthyOpt] at hr
  · refine ⟨none, ?_, fun _ => rfl⟩
    rw [psCalc, if_neg h]

theorem evIntrinsic_ok (e b : Option ℚ) (shares tm : ℚ) (hsh : shares ≠ 0) :
    ∃ pr, evIntrinsic e b shares tm = Except.ok pr ∧
      (pr.1 ≠ none → 0 < b.getD 0) ∧
      (b = none → pr.1 = none) := by
  by_cases h : (truthyOpt b && decide (0 < b.getD 0) && decide (0 < shares)) = true
  · have hbpos : 0 < b.getD 0 :=
      of_decide_eq_true (band_true_iff.mp (band_true_iff.mp h).1).2
    have hb0 : b.getD 0 ≠ 0 := ne_of_gt hbpos
    refine ⟨(some (b.getD 0 * tm / b.getD 0), some (b.getD 0 * tm / shares)),
      ?_, fun _ => hbpos, ?_⟩
    · simp only [evIntrinsic, if_pos h, pydiv, if_neg hsh, if_neg hb0]
    · intro hn
      subst hn
      have hcon : truthyOpt (none : Option ℚ) = true :=
        (band_true_iff.mp (band_true_iff.mp h).1).1
      simp [truthyOpt] at hcon
  · by_cases h2 : (truthyOpt e && decide (0 < e.getD 0)) = true
    · refine ⟨(none, some (e.getD 0 * tm)), ?_, fun hc => absurd rfl hc,
        fun _ => rfl⟩
      rw [evIntrinsic, if_neg h, if_pos h2]
    · refine ⟨(none, none), ?_, fun hc => absurd rfl hc, fun _ => rfl⟩
      rw [evIntrinsic, if_neg h, if_neg h2]

/-- C9: valuation_from_multiples is total — non-numeric inputs coerce to None,
a non-positive share count is replaced by 1, no division by zero occurs, pe is
computed only from truthy price and eps, ev_ebit only from positive ebit, and
each ratio is None when its inputs are missing. -/
theorem valuation_from_multiples_total (price eps revenue ebit : FloatArg)
    (shares_outstanding terminal_multiple : ℚ) :
    ∃ r, valuation_from_multiples price eps revenue ebit shares_outstanding
        terminal_multiple = Except.ok r ∧
      (safe_float FloatArg.nonNumeric = none ∧ safe_float FloatArg.none = none) ∧
      (shares_outstanding ≤ 0 →
        valuation_from_multiples price eps revenue ebit shares_outstanding
            terminal_multiple =
          valuation_from_multiples price eps revenue ebit 1 terminal_multiple) ∧
      (r.pe ≠ none → truthyOpt (safe_float price) = true ∧
        truthyOpt (safe_float eps) = true) ∧
      ((safe_float price = none ∨ safe_float eps = none) → r.pe = none) ∧
      ((safe_float price = none ∨ safe_float revenue = none) → r.ps = none) ∧
      (r.ev_ebit ≠ none → 0 < (safe_float ebit).getD 0) ∧
      (safe_float ebit = none → r.ev_ebit = none) := by
  have hsh : (if 0 < shares_outstanding then shares_outstanding else (1:ℚ)) ≠ 0 := by
    by_cases h : 0 < shares_outstanding
    · rw [if_pos h]; exact ne_of_gt h
    · rw [if_neg h]; exact one_ne_zero
  obtain ⟨pe, hpe, hpe1, hpe2⟩ := peCalc_ok (safe_float price) (safe_float eps)
  obtain ⟨ps, hps, hps2⟩ := psCalc_ok (safe_float price) (safe_float revenue) _ hsh
  obtain ⟨pr, hev, hev1, hev2⟩ := evIntrinsic_ok (safe_float eps)
    (safe_float ebit) _ terminal_multiple hsh
  refine ⟨⟨pe, ps, pr.1, pr.2⟩, ?_, ⟨rfl, rfl⟩, ?_, hpe1, hpe2, hps2, hev1, hev2⟩
  · simp only [valuation_from_multiples, hpe, hps, hev]
  · intro h
    rw [valuation_from_multiples, valuation_from_multiples]
    simp only [if_neg (not_lt.mpr h), if_pos one_pos]

/-- Witness for C9 at concrete inputs with a missing revenue and a
non-positive share count. -/
theorem valuation_from_multiples_total_witness :
    ∃ r, valuation_from_multiples (FloatArg.num 10) (FloatArg.num 2)
        FloatArg.none (FloatArg.num 5) (-3) 4 = Except.ok r ∧
      (safe_float FloatArg.nonNumeric = none ∧ safe_float FloatArg.none = none) ∧
      ((-3 : ℚ) ≤ 0 →
        valuation_from_multiples (FloatArg.num 10) (FloatArg.num 2)
            FloatArg.none (FloatArg.num 5) (-3) 4 =
          valuation_from_multiples (FloatArg.num 10) (FloatArg.num 2)
            FloatArg.none (FloatArg.num 5) 1 4) ∧
      (r.pe ≠ none → truthyOpt (safe_float (FloatArg.num 10)) = true ∧
        truthyOpt (safe_float (FloatArg.num 2)) = true) ∧
      ((safe_float (FloatArg.num 10) = none ∨
          safe_float (FloatArg.num 2) = none) → r.pe = none) ∧
      ((safe_float (FloatArg.num 10) = none ∨
          safe_float FloatArg.none = none) → r.ps = none) ∧
      (r.ev_ebit ≠ none → 0 < (safe_float (FloatArg.num 5)).getD 0) ∧
      (safe_float (FloatArg.num 5) = none → r.ev_ebit = none) :=
  valuation_from_multiples_total (FloatArg.num 10) (FloatArg.num 2)
    FloatArg.none (FloatArg.num 5) (-3) 4

theorem pvSum_ok (dr : ℚ) (hdr : (1 : ℚ) + dr ≠ 0) :
    ∀ (flows : List ℚ) (year : ℕ) (acc : ℚ),
      ∃ q, pvSum dr flows year acc = Except.ok q := by
  intro flows
  induction flows with
  | nil => exact fun year acc => ⟨acc, rfl⟩
  | cons f fs ih =>
    intro year acc
    have hpow : ((1 : ℚ) + dr) ^ year ≠ 0 := pow_ne_zero year hdr
    obtain ⟨q, hq⟩ := ih (year + 1) (acc + f / ((1 + dr) ^ year))
    refine ⟨q, ?_⟩
    simp only [pvSum, pydiv, if_neg hpow]
    exact hq

theorem project_cash_flows_ne_nil (latest g : ℚ) {n : ℕ} (hn : 1 ≤ n) :
    project_cash_flows latest g n ≠ [] := by
  cases n with
  | zero => exact absurd hn (by omega)
  | succ k => simp [project_cash_flows]

/-- Counterexample to C8 as stated: with a usable cash-flow series, positive
shares and discount_rate -1, the discounting loop divides by
(1 + discount_rate) ^ year = 0 and the Python code raises ZeroDivisionError,
so discounted_cash_flow is not total. -/
theorem dcf_discount_rate_neg_one_divzero :
    discounted_cash_flow [some 100] (-1) 0 (-2) 1 5 =
      Except.error PyErr.ZeroDivisionError := by
  have hin : initial_fcf [some (100 : ℚ)] = some 100 := rfl
  have hshare : ¬ ((1 : ℚ) ≤ 0) := by norm_num
  have hpow : ((1 : ℚ) + (-1)) ^ (1 : ℕ) = 0 := by norm_num
  simp only [discounted_cash_flow, hin, if_neg hshare]
  rw [show project_cash_flows (100 : ℚ) 0 5 =
        100 * (1 + 0) :: project_cash_flows (100 * (1 + 0)) 0 4 from rfl]
  simp only [pvSum, pydiv, hpow]
  simp

/-- C8 (amended): away from the raising inputs — discount_rate ≠ -1 and a
positive horizon — discounted_cash_flow is total and never divides by zero:
an all-None series or non-positive share count yields the degenerate result
(empty projections, zero monetary fields, None per-share value), the terminal
value is zero unless discount_rate exceeds terminal_growth, and the per-share
value is None whenever the enterprise value is not positive. -/
theorem dcf_total_and_guarded (fcfs : List (Option ℚ))
    (dr g tg shares : ℚ) (horizon : ℕ)
    (hdr : dr ≠ -1) (hh : 1 ≤ horizon) :
    ∃ r, discounted_cash_flow fcfs dr g tg shares horizon = Except.ok r ∧
      ((fcfs.filterMap id = [] ∨ shares ≤ 0) → r = dcfDegenerate dr tg) ∧
      (¬ tg < dr → r.terminal_value = 0) ∧
      (r.enterprise_value ≤ 0 → r.intrinsic_value_per_share = none) ∧
      (r.intrinsic_value_per_share = none ∨ 0 < r.enterprise_value) := by
  have hone : (1 : ℚ) + dr ≠ 0 := by
    intro hz
    exact hdr (by linarith)
  cases hin : initial_fcf fcfs with
  | none =>
    exact ⟨dcfDegenerate dr tg, by simp [discounted_cash_flow, hin],
      fun _ => rfl, fun _ => rfl, fun _ => rfl, Or.inl rfl⟩
  | some latest =>
    by_cases hshare : shares ≤ 0
    · exact ⟨dcfDegenerate dr tg,
        by simp [discounted_cash_flow, hin, hshare],
        fun _ => rfl, fun _ => rfl, fun _ => rfl, Or.inl rfl⟩
    · have hsh0 : shares ≠ 0 := fun h0 => hshare (le_of_eq h0)
      have hnodeg : (fcfs.filterMap id = [] ∨ shares ≤ 0) → False := by
        rintro (hemp | hle)
        · rw [initial_fcf, hemp] at hin
          exact Option.noConfusion hin
        · exact hshare hle
      obtain ⟨pv, hpv⟩ :=
        pvSum_ok dr hone (project_cash_flows latest g horizon) 1 0
      have hpow : ((1 : ℚ) + dr) ^ horizon ≠ 0 := pow_ne_zero _ hone
      by_cases htg : tg < dr
      · have hne : project_cash_flows latest g horizon ≠ [] :=
          project_cash_flows_ne_nil latest g hh
        obtain ⟨last, hlast⟩ :
            ∃ l, (project_cash_flows latest g horizon).getLast? = some l := by
          cases hl : (project_cash_flows latest g horizon).getLast? with
          | none => exact absurd (List.getLast?_eq_none_iff.mp hl) hne
          | some l => exact ⟨l, rfl⟩
        have hsub : dr - tg ≠ 0 := sub_ne_zero_of_ne (ne_of_gt htg)
        by_cases hpos :
            0 < pv + last * (1 + tg) / (dr - tg) / ((1 + dr) ^ horizon)
        · refine ⟨⟨project_cash_flows latest g horizon, dr, tg, pv,
              last * (1 + tg) / (dr - tg),
              pv + last * (1 + tg) / (dr - tg) / ((1 + dr) ^ horizon),
              some ((pv + last * (1 + tg) / (dr - tg) / ((1 + dr) ^ horizon)) /
                shares)⟩,
            ?_, fun hd => absurd hd hnodeg, fun hc => absurd htg hc,
            fun hle => absurd hpos (not_lt.mpr hle), Or.inr hpos⟩
          simp only [discounted_cash_flow, hin, if_neg hshare, hpv,
            if_pos htg, pyLast, hlast, pydiv, if_neg hsub, if_neg hpow,
            if_pos hpos, if_neg hsh0]
        · refine ⟨⟨project_cash_flows latest g horizon, dr, tg, pv,
              last * (1 + tg) / (dr - tg),
              pv + last * (1 + tg) / (dr - tg) / ((1 + dr) ^ horizon),
              none⟩,
            ?_, fun hd => absurd hd hnodeg, fun hc => absurd htg hc,
            fun _ => rfl, Or.inl rfl⟩
          simp only [discounted_cash_flow, hin, if_neg hshare, hpv,
            if_pos htg, pyLast, hlast, pydiv, if_neg hsub, if_neg hpow,
            if_neg hpos, if_neg hsh0]
      · by_cases hpos : 0 < pv + 0 / ((1 + dr) ^ horizon)
        · refine ⟨⟨project_cash_flows latest g horizon, dr, tg, pv, 0,
              pv + 0 / ((1 + dr) ^ horizon),
              some ((pv + 0 / ((1 + dr) ^ horizon)) / shares)⟩,
            ?_, fun hd => absurd hd hnodeg, fun _ => rfl,
            fun hle => absurd hpos (not_lt.mpr hle), Or.inr hpos⟩
          simp only [discounted_cash_flow, hin, if_neg hshare, hpv,
            if_neg htg, pydiv, if_neg hpow, if_pos hpos, if_neg hsh0]
        · refine ⟨⟨project_cash_flows latest g horizon, dr, tg, pv, 0,
              pv + 0 / ((1 + dr) ^ horizon),
              none⟩,
            ?_, fun hd => absurd hd hnodeg, fun _ => rfl,
            fun _ => rfl, Or.inl rfl⟩
          simp only [discounted_cash_flow, hin, if_neg hshare, hpv,
            if_neg htg, pydiv, if_neg hpow, if_neg hpos, if_neg hsh0]

/-- Witness for C8 (amended) at a concrete non-raising input. -/
theorem dcf_total_and_guarded_witness :
    ∃ r, discounted_cash_flow [some 100] (1/10) 0 0 1 5 = Except.ok r ∧
      ((List.filterMap id [some (100 : ℚ)] = [] ∨ (1 : ℚ) ≤ 0) →
        r = dcfDegenerate (1/10) 0) ∧
      (¬ (0 : ℚ) < 1/10 → r.terminal_value = 0) ∧
      (r.enterprise_value ≤ 0 → r.intrinsic_value_per_share = none) ∧
      (r.intrinsic_value_per_share = none ∨ 0 < r.enterprise_value) :=
  dcf_total_and_guarded [some 100] (1/10) 0 0 1 5 (by norm_num) (by norm_num)

theorem pyUpper_pyStrip_empty : pyUpper (pyStrip "") = "" := rfl

theorem normalizeAux_spec (raw : List String) :
    ∀ acc, normalizeAux raw acc =
      acc ++ (firstDedup (cleanedTickers raw)).filter
        (fun y => decide (y ∉ acc)) := by
  induction raw with
  | nil =>
    intro acc
    simp [normalizeAux, cleanedTickers, firstDedup]
  | cons t ts ih =>
    intro acc
    by_cases ht : t = ""
    · subst ht
      rw [show normalizeAux ("" :: ts) acc = normalizeAux ts acc from by
        simp [normalizeAux]]
      rw [show cleanedTickers ("" :: ts) = cleanedTickers ts from by
        simp [cleanedTickers, pyUpper_pyStrip_empty]]
      exact ih acc
    · have hn1 : normalizeAux (t :: ts) acc =
          if pyUpper (pyStrip t) = "" ∨ pyUpper (pyStrip t) ∈ acc then
            normalizeAux ts acc
          else normalizeAux ts (acc ++ [pyUpper (pyStrip t)]) := by
        simp [normalizeAux, ht]
      by_cases hue : pyUpper (pyStrip t) = ""
      · rw [hn1, if_pos (Or.inl hue)]
        rw [show cleanedTickers (t :: ts) = cleanedTickers ts from by
          simp [cleanedTickers, List.filter_cons, hue]]
        exact ih acc
      · have hc : cleanedTickers (t :: ts) =
            pyUpper (pyStrip t) :: cleanedTickers ts := by
          simp [cleanedTickers, List.filter_cons, hue]
        by_cases hmem : pyUpper (pyStrip t) ∈ acc
        · rw [hn1, if_pos (Or.inr hmem), hc, ih acc]
          congr 1
          rw [firstDedup, List.filter_cons, if_neg (by simp [hmem]),
            List.filter_filter]
          apply List.filter_congr
          intro y _
          by_cases hyu : y = pyUpper (pyStrip t)
          · subst hyu
            simp [hmem]
          · simp [hyu]
        · rw [hn1, if_neg (by push_neg; exact ⟨hue, hmem⟩), hc,
            ih (acc ++ [pyUpper (pyStrip t)])]
          rw [firstDedup, List.filter_cons, if_pos (by simp [hmem]),
            List.append_assoc, List.singleton_append]
          congr 1
          rw [List.filter_filter]
          congr 1
          apply List.filter_congr
          intro y _
          by_cases hyu : y = pyUpper (pyStrip t)
          · subst hyu
            simp
          · simp [hyu, List.mem_append]

theorem normalize_tickers_spec (raw : List String) :
    normalize_tickers raw = firstDedup (cleanedTickers raw) := by
  rw [normalize_tickers, normalizeAux_spec raw []]
  simp

/-- C10: with a non-empty tickers value, InputSupervisorAgent.run writes
candidates as the stripped, uppercased, first-occurrence-deduplicated ticker
sequence, truncated when max_candidates is a positive int; with no tickers it
only ensures the candidates key exists (the empty list when absent), so
candidates is always present afterwards. -/
theorem input_supervisor_candidates (s : PipelineState) :
    ((input_supervisor_run s).candidates).isSome = true ∧
    (∀ tv mc, s.params = some ⟨tv, mc⟩ → explicitTickers tv ≠ [] →
      (input_supervisor_run s).candidates =
        some (truncTake mc (firstDedup (cleanedTickers (explicitTickers tv))))) ∧
    (explicitTickers (s.params.getD ⟨TickersVal.none, none⟩).tickers = [] →
      s.candidates = none → (input_supervisor_run s).candidates = some []) ∧
    (∀ c, explicitTickers (s.params.getD ⟨TickersVal.none, none⟩).tickers = [] →
      s.candidates = some c → (input_supervisor_run s).candidates = some c) := by
  refine ⟨?_, ?_, ?_, ?_⟩
  · by_cases he :
        explicitTickers (s.params.getD ⟨TickersVal.none, none⟩).tickers = []
    · cases hc : s.candidates with
      | none => simp [input_supervisor_run, he, hc]
      | some c => simp [input_supervisor_run, he, hc]
    · simp [input_supervisor_run, he]
  · intro tv mc hp hne
    simp [input_supervisor_run, hp, hne, normalize_tickers_spec]
  · intro he hc
    simp [input_supervisor_run, he, hc]
  · intro c he hc
    simp [input_supervisor_run, he, hc]

/-- Witness for C10: a comma-separated string with spacing, case and a
duplicate normalizes to the deduplicated uppercase pair. -/
theorem input_supervisor_candidates_witness :
    (input_supervisor_run sampleTickerState).candidates =
      some ["AAPL", "MSFT"] := by
  have h := (input_supervisor_candidates sampleTickerState).2.1
    (TickersVal.str " aapl, msft ,AAPL,") (some 5) rfl (by decide)
  rw [h]
  decide

end InvestAgent
